import Mathlib

/-!
# Verification of the arelo detection-and-supervision engine

Shallow embedding of the core of `arelo` (a file watcher that restarts a
child command on changes), translated from `arelo.go`, `arelo_unix.go`
(= `src/unnamed/part_007`), and `fspoll/poller.go`.

Paths, glob patterns and error messages are modelled as lists of
characters (`Str`).  The external glob capability `doublestar.Match` is
an opaque parameter `Glob` (the spec treats pattern syntax as an opaque
`match(path, pattern) -> bool` capability).  Channel sends are modelled
by accumulating the sent values into output lists; goroutine loops
become step relations or per-cycle pure functions.
-/

namespace Arelo

/-- Paths, glob patterns and error texts, modelled as character lists. -/
abbrev Str := List Char

/-- `strings.HasPrefix(s, "./")` specialised to the current-dir prefix:
the two characters `.` `/`. -/
def hasCurDirPrefix (s : Str) : Bool :=
  match s with
  | '.' :: '/' :: _ => true
  | _ => false

/-- The body of the prefix strip in `matchPatterns` (arelo.go:264-266):
`if strings.HasPrefix(t, "./") { t = t[2:] }`. -/
def stripCurDir (t : Str) : Str :=
  if hasCurDirPrefix t then t.drop 2 else t

/-- `removeCurDirPrefix` (arelo.go:159-166): strips one leading `./`
from every element of the list. -/
def removeCurDirPrefix (arr : List Str) : List Str :=
  arr.map stripCurDir

/-- The opaque glob capability: `doublestar.Match(pattern, name)`,
which may fail with a pattern-syntax error. -/
abbrev Glob := Str → Str → Except Str Bool

/-- The pattern-list loop of `matchPatterns` (arelo.go:267-276):
first match wins; a match error aborts. -/
def matchList (g : Glob) (t : Str) : List Str → Except Str Bool
  | [] => .ok false
  | p :: ps =>
    match g p t with
    | .error e => .error e
    | .ok true => .ok true
    | .ok false => matchList g t ps

/-- `matchPatterns` (arelo.go:263-277): strip a leading `./` from the
candidate, then try each pattern in order. -/
def matchPatterns (g : Glob) (t : Str) (pats : List Str) : Except Str Bool :=
  matchList g (stripCurDir t) pats

/-! ## Filesystem events (fsnotify operation flags) -/

/-- `fsnotify.Op` flag values. -/
inductive Op where
  | create
  | write
  | remove
  | rename
  | chmod
  deriving DecidableEq, Repr

/-- A filesystem event: a path plus a set of operation flags
(modelled as a list; `Has` is membership / intersection). -/
structure Event where
  name : Str
  ops : List Op
  deriving DecidableEq, Repr

/-- `event.Has(op)` for a single flag. -/
def Event.hasOp (e : Event) (o : Op) : Bool :=
  e.ops.contains o

/-- `event.Has(watchOp)` where `watchOp = ^filtOp` (arelo.go:207,229):
true iff some flag of the event is NOT filtered out. -/
def Event.hasWatchOp (e : Event) (filtOp : List Op) : Bool :=
  e.ops.any (fun o => !(filtOp.contains o))

/-! ## The Event Router step (arelo.go:209-258)

One iteration of the `watcher` goroutine's event branch, as a pure
function of the event and of the `os.Stat` outcome it would observe in
the directory-creation branch.  Its outputs are the values sent on the
trigger channel `modC` and the recursive-walk requests. -/

/-- Outcome of the `os.Stat(name)` call in the create branch. -/
inductive StatRes where
  | ok (isDir : Bool)
  | err (e : Str)
  deriving DecidableEq, Repr

/-- An output of one router step: either a trigger forwarded on `modC`
or a recursive watch-registration walk of a new directory. -/
inductive RouterOut where
  | trigger (name : Str)
  | walkDir (name : Str)
  deriving DecidableEq, Repr

/-- The wrapping text of the `match ignores` error (arelo.go:223). -/
def matchIgnoresMsg : Str :=
  ['m', 'a', 't', 'c', 'h', ' ', 'i', 'g', 'n', 'o', 'r', 'e', 's', ':', ' ']

/-- The wrapping text of the `match patterns` error (arelo.go:231). -/
def matchPatternsMsg : Str :=
  ['m', 'a', 't', 'c', 'h', ' ', 'p', 'a', 't', 't', 'e', 'r', 'n', 's', ':', ' ']

/-- One iteration of the router's event branch (arelo.go:213-251):
ignore matching first (`continue` on match, skipping everything else),
then the filter mask and trigger-pattern test, then the new-directory
branch (stat errors are logged and skipped). -/
def routerStep (g : Glob) (patterns ignores : List Str) (filtOp : List Op)
    (ev : Event) (st : StatRes) : Except Str (List RouterOut) :=
  match matchPatterns g ev.name ignores with
  | .error e => .error (matchIgnoresMsg ++ e)
  | .ok true => .ok []
  | .ok false =>
    let trigStep : Except Str (List RouterOut) :=
      if ev.hasWatchOp filtOp then
        match matchPatterns g ev.name patterns with
        | .error e => .error (matchPatternsMsg ++ e)
        | .ok true => .ok [RouterOut.trigger ev.name]
        | .ok false => .ok []
      else .ok []
    match trigStep with
    | .error e => .error e
    | .ok trigs =>
      let walks : List RouterOut :=
        if ev.hasOp Op.create then
          match st with
          | .err _ => []
          | .ok isDir => if isDir then [RouterOut.walkDir ev.name] else []
        else []
      .ok (trigs ++ walks)

end Arelo

namespace Arelo

/-- A concrete glob used for witnesses: exact equality of pattern and
candidate, never erring. -/
def eqGlob : Glob := fun p t => .ok (p == t)

/-! ## The debounce relay (arelo.go:362-370)

`for name := range reload { select { case trigger <- name: default: } }`.
`trigger` is unbuffered, so the send succeeds exactly when the
Supervisor is currently blocked on its `<-trigger` receive; on the
`default` branch the notification is dropped.  Within one debounce
window the Supervisor performs at most one such receive (after it, it
is in the `Delaying` stage until the next cycle), so readiness is
consumed by a delivery and never replenished inside the window. -/

/-- The notifications delivered to the Supervisor during one debounce
window, given the Supervisor's initial readiness and the arrival
sequence.  A delivery consumes readiness; a non-ready arrival is
dropped immediately (`default` branch). -/
def relayWindow (ready : Bool) : List Str → List Str
  | [] => []
  | n :: ns => if ready then n :: relayWindow false ns else relayWindow ready ns

/-- The notifications dropped by the relay during the same window. -/
def relayWindowDropped (ready : Bool) : List Str → List Str
  | [] => []
  | n :: ns => if ready then relayWindowDropped false ns else n :: relayWindowDropped ready ns

/-! ## Child termination (arelo_unix.go `killChilds`, arelo.go `runCmd`) -/

/-- The POSIX signals the program uses. -/
inductive Signal where
  | sighup
  | sigint
  | sigquit
  | sigkill
  | sigusr1
  | sigusr2
  | sigterm
  | sigwinch
  | sigcont
  deriving DecidableEq, Repr

/-- Result of `killChilds(c, sig)` (arelo_unix.go:133-140): the list of
`syscall.Kill` calls made, as (target pid, signal) pairs — the target
is always the process group `-pid` — and the returned error.
`kill s` models the outcome of `syscall.Kill(-pid, s)`. -/
def killChilds (pid : Int) (kill : Signal → Option Str) (sig : Signal) :
    List (Int × Signal) × Option Str :=
  let e1 := kill sig
  if e1 = none ∧ sig ≠ Signal.sigkill ∧ sig ≠ Signal.sigcont then
    ((-pid, sig) :: [(-pid, Signal.sigcont)], kill Signal.sigcont)
  else ([(-pid, sig)], e1)

/-- `waitForTerm` (arelo.go:30): the grace window, 5 time units. -/
def waitForTerm : Nat := 5

/-- Observable outcome of the teardown stage of `runCmd`
(arelo.go:496-507). -/
structure Teardown where
  /-- all `syscall.Kill` calls, in order -/
  sent : List (Int × Signal)
  /-- whether the grace-window timeout branch (force kill) ran -/
  forced : Bool
  /-- the error returned by the teardown, if any -/
  err : Option Str
  deriving DecidableEq, Repr

/-- The teardown sequence of `runCmd` once a stop was decided
(arelo.go:496-507): `killChilds(c, sig)`; on error return it; then
wait on `done` against a `waitForTerm` timer; on timeout
`killChilds(c, SIGKILL)` and then wait unconditionally.
`exitsWithinGrace` tells whether `done` fires within the window. -/
def runCmdTeardown (pid : Int) (kill : Signal → Option Str) (sig : Signal)
    (exitsWithinGrace : Bool) : Teardown :=
  let k1 := killChilds pid kill sig
  match k1.2 with
  | some e => ⟨k1.1, false, some e⟩
  | none =>
    if exitsWithinGrace then ⟨k1.1, false, none⟩
    else
      let k2 := killChilds pid kill Signal.sigkill
      ⟨k1.1 ++ k2.1, true, k2.2⟩

/-! ## The Supervisor loop (arelo.go:396-445) as a state machine

Each iteration: check outer cancellation at the loop top; start the
child goroutine (which closes `done` after `runCmd` returns, i.e. after
the child has been waited for); block for cancellation / trigger /
auto-restart; delay; `cancel(); <-done` and loop.  Every path that
leaves the `running`/`delaying` stages — back to the loop top or out of
the loop — passes through the `<-done` receive, which is the reap of
the current child.  `live` counts children started and not yet
reaped. -/

/-- Control position of the Supervisor loop. -/
inductive RPhase where
  | check
  | running
  | delaying
  | stopped
  deriving DecidableEq, Repr

/-- Supervisor state: control position and number of live
(started, not yet reaped) children. -/
structure RState where
  phase : RPhase
  live : Nat
  deriving DecidableEq, Repr

/-- One transition of the Supervisor loop.  Line references into
arelo.go. -/
inductive RStep : RState → RState → Prop where
  /-- 398-402: `ctx.Done()` already set at the loop top; return. -/
  | exitAtCheck (l : Nat) : RStep ⟨.check, l⟩ ⟨.stopped, l⟩
  /-- 404-421: start the child goroutine; its `done` is fresh. -/
  | start (l : Nat) : RStep ⟨.check, l⟩ ⟨.running, l + 1⟩
  /-- 423-427: cancellation while running: `cancel(); <-done; return`. -/
  | shutdownFromRunning (l : Nat) : RStep ⟨.running, l + 1⟩ ⟨.stopped, l⟩
  /-- 428-432: a trigger message or the auto-restart signal. -/
  | triggered (l : Nat) : RStep ⟨.running, l⟩ ⟨.delaying, l⟩
  /-- 435-439: cancellation while delaying: `cancel(); <-done; return`. -/
  | shutdownFromDelaying (l : Nat) : RStep ⟨.delaying, l + 1⟩ ⟨.stopped, l⟩
  /-- 440-443: delay elapsed: `cancel(); <-done` then loop. -/
  | delayElapsed (l : Nat) : RStep ⟨.delaying, l + 1⟩ ⟨.check, l⟩

/-- States reachable by the Supervisor loop from its entry point. -/
inductive RReach : RState → Prop where
  | init : RReach ⟨.check, 0⟩
  | step {s t : RState} : RReach s → RStep s t → RReach t

/-- The inductive invariant of the Supervisor loop: at the loop top no
child is unreaped; while running or delaying exactly the current child
is; on exit everything has been reaped. -/
def RInv : RState → Prop
  | ⟨.check, l⟩ => l = 0
  | ⟨.running, l⟩ => l = 1
  | ⟨.delaying, l⟩ => l = 1
  | ⟨.stopped, l⟩ => l = 0

end Arelo

namespace fspoll

/-! ## The polling watcher (`fspoll/poller.go`)

The poller keeps, per watched path, a dedicated loop that wakes on a
fixed interval and re-stats the path.  One wake-up of such a loop is a
pure function of the loop state and of the filesystem answers it
observes (`os.Stat`, `os.ReadDir`, `DirEntry.Info`); channel sends are
modelled by accumulating the sent events and errors. -/

/-- What `fs.FileInfo` provides: `Mode()`, `ModTime()`, `Size()`,
`IsDir()`.  Modes and times are abstract numbers. -/
structure FInfo where
  mode : Nat
  modtime : Nat
  size : Nat
  isDir : Bool
  deriving DecidableEq, Repr

/-- The `stat` fingerprint struct (poller.go:164-168). -/
structure Stat where
  mode : Nat
  modtime : Nat
  size : Nat
  deriving DecidableEq, Repr

/-- `makeStat` (poller.go:170-176). -/
def makeStat (fi : FInfo) : Stat :=
  ⟨fi.mode, fi.modtime, fi.size⟩

/-- Outcome of an `os.Stat` or `DirEntry.Info` call. -/
inductive Fstat where
  | ok (fi : FInfo)
  | notExist
  | errOther (e : Arelo.Str)
  deriving DecidableEq, Repr

/-- A directory entry as seen in one `os.ReadDir` scan, together with
the outcome of its `Info()` call. -/
structure DirEnt where
  name : Arelo.Str
  info : Fstat
  deriving DecidableEq, Repr

/-- Outcome of the `os.ReadDir` call of one wake-up. -/
inductive ReadDirRes where
  | ok (des : List DirEnt)
  | notExist
  | errOther (e : Arelo.Str)
  deriving DecidableEq, Repr

/-- An event sent on the poller's `events` channel (a single
operation per event, unlike the native backend). -/
structure PEvent where
  name : Arelo.Str
  op : Arelo.Op
  deriving DecidableEq, Repr

/-- `filepath.Join(dir, base)` for the simple shapes the poller
produces: `dir ++ "/" ++ base`. -/
def joinPath (dir base : Arelo.Str) : Arelo.Str :=
  dir ++ '/' :: base

/-- Lookup in the `prev` entry map (a Go `map[string]stat`, modelled
as an association list with unique keys). -/
def lookupStat : List (Arelo.Str × Stat) → Arelo.Str → Option Stat
  | [], _ => none
  | (n, s) :: rest, k => if n = k then some s else lookupStat rest k

/-- `delete(prev, basename)`. -/
def eraseStat : List (Arelo.Str × Stat) → Arelo.Str → List (Arelo.Str × Stat)
  | [], _ => []
  | (n, s) :: rest, k => if n = k then rest else (n, s) :: eraseStat rest k

/-- How a wake-up of a polling loop ends. -/
inductive Outcome where
  /-- fall through to the next tick -/
  | next
  /-- the loop returns (ends) -/
  | stop
  /-- a nil `FileInfo` is dereferenced after a non-not-exist stat
  error whose send succeeded (poller.go:215-223 falls through with
  `fi = nil`) -/
  | crash
  deriving DecidableEq, Repr

/-- Result of one wake-up of `pollingDir`: the events and errors sent,
the outcome, and the remembered dir mode and entry map for the next
tick (unchanged when the loop stops). -/
structure TickRes where
  outcome : Outcome
  events : List PEvent
  errors : List Arelo.Str
  mode : Nat
  prev : List (Arelo.Str × Stat)
  deriving DecidableEq, Repr

/-- The per-entry loop of `pollingDir` (poller.go:242-283), with the
working `prev` (entries seen in earlier scans, not yet matched) and
`cur` (entries of this scan) maps.  Returns the events and errors sent
and the final `prev`/`cur`. -/
def dirEntsStep (dir : Arelo.Str) (prev cur : List (Arelo.Str × Stat)) :
    List DirEnt →
      List PEvent × List Arelo.Str × List (Arelo.Str × Stat) × List (Arelo.Str × Stat)
  | [] => ([], [], prev, cur)
  | de :: rest =>
    match de.info with
    | .notExist =>
      let r := dirEntsStep dir prev cur rest
      (⟨joinPath dir de.name, Arelo.Op.remove⟩ :: r.1, r.2.1, r.2.2)
    | .errOther e =>
      let r := dirEntsStep dir prev cur rest
      (r.1, e :: r.2.1, r.2.2)
    | .ok fi =>
      let cs := makeStat fi
      let cur' := cur ++ [(de.name, cs)]
      match lookupStat prev de.name with
      | none =>
        let r := dirEntsStep dir prev cur' rest
        (⟨joinPath dir de.name, Arelo.Op.create⟩ :: r.1, r.2.1, r.2.2)
      | some ps =>
        let prev' := eraseStat prev de.name
        let evs1 :=
          (if cs.mode ≠ ps.mode
            then [(⟨joinPath dir de.name, Arelo.Op.chmod⟩ : PEvent)] else [])
          ++ (if ¬fi.isDir ∧ (cs.modtime ≠ ps.modtime ∨ cs.size ≠ ps.size)
            then [(⟨joinPath dir de.name, Arelo.Op.write⟩ : PEvent)] else [])
        let r := dirEntsStep dir prev' cur' rest
        (evs1 ++ r.1, r.2.1, r.2.2)

/-- One wake-up of `pollingDir` (poller.go:206-292): re-stat the
directory (own-mode check), rescan its immediate entries against
`prev`, then report the entries that disappeared; the next `prev` is
this scan's `cur`. -/
def pollDirTick (name : Arelo.Str) (mode : Nat) (prev : List (Arelo.Str × Stat))
    (dirStat : Fstat) (rd : ReadDirRes) : TickRes :=
  match dirStat with
  | .notExist => ⟨.stop, [], [], mode, prev⟩
  | .errOther e => ⟨.crash, [], [e], mode, prev⟩
  | .ok fi =>
    let evs0 : List PEvent :=
      if fi.mode ≠ mode then [⟨name, Arelo.Op.chmod⟩] else []
    let mode' := if fi.mode ≠ mode then fi.mode else mode
    match rd with
    | .notExist => ⟨.stop, evs0, [], mode', prev⟩
    | .errOther e => ⟨.next, evs0, [e], mode', prev⟩
    | .ok des =>
      let r := dirEntsStep name prev [] des
      let remPrev := r.2.2.1
      let cur := r.2.2.2
      let evsR := remPrev.map (fun p => (⟨joinPath name p.1, Arelo.Op.remove⟩ : PEvent))
      ⟨.next, evs0 ++ r.1 ++ evsR, r.2.1, mode', cur⟩

/-- Result of one wake-up of `pollingFile`. -/
structure FileTickRes where
  outcome : Outcome
  events : List PEvent
  errors : List Arelo.Str
  mode : Nat
  modtime : Nat
  size : Nat
  deriving DecidableEq, Repr

/-- One wake-up of `pollingFile` (poller.go:302-334): re-stat the
file; a vanished file yields a `Remove` event (no error) and ends the
loop; otherwise `Chmod` on a mode change and `Write` on a
`(modtime, size)` change. -/
def pollFileTick (name : Arelo.Str) (mode modt size : Nat) (st : Fstat) : FileTickRes :=
  match st with
  | .notExist => ⟨.stop, [⟨name, Arelo.Op.remove⟩], [], mode, modt, size⟩
  | .errOther e => ⟨.crash, [], [e], mode, modt, size⟩
  | .ok fi =>
    let evs1 : List PEvent := if fi.mode ≠ mode then [⟨name, Arelo.Op.chmod⟩] else []
    let mode' := if fi.mode ≠ mode then fi.mode else mode
    let evs2 : List PEvent :=
      if fi.modtime ≠ modt ∨ fi.size ≠ size then [⟨name, Arelo.Op.write⟩] else []
    let modt' := if fi.modtime ≠ modt ∨ fi.size ≠ size then fi.modtime else modt
    let size' := if fi.modtime ≠ modt ∨ fi.size ≠ size then fi.size else size
    ⟨.next, evs1 ++ evs2, [], mode', modt', size'⟩

/-! ## Poller registration state (`Add` / `Close` / `Remove` /
`WatchList`, poller.go:42-122) -/

/-- The mutable state of a `Poller`: the `closed` flag, whether the
root context has been cancelled, the keys of the `cancellers` map, and
whether the `events`/`errors` channels have ever been closed (no
statement in poller.go closes them; only the per-watch `ready`
channel is ever closed). -/
structure PollerState where
  closed : Bool
  cancelled : Bool
  cancellers : List Arelo.Str
  eventsClosed : Bool
  errorsClosed : Bool
  deriving DecidableEq, Repr

/-- `New` (poller.go:29-39). -/
def newPoller : PollerState :=
  ⟨false, false, [], false, false⟩

/-- Errors of the registration API. -/
inductive PErr where
  | errClosed
  | errNonExistentWatch
  | statErr (e : Arelo.Str)
  deriving DecidableEq, Repr

/-- `Add` (poller.go:42-79).  `st` is the outcome of `os.Stat(name)`.
Returns the error, the new state, and whether a new polling loop
goroutine was started. -/
def pollerAdd (p : PollerState) (name : Arelo.Str) (st : Except Arelo.Str FInfo) :
    Option PErr × PollerState × Bool :=
  if p.closed then (some .errClosed, p, false)
  else
    match st with
    | .error e => (some (.statErr e), p, false)
    | .ok _ =>
      if name ∈ p.cancellers then (none, p, false)
      else (none, { p with cancellers := name :: p.cancellers }, true)

/-- `Close` (poller.go:82-90): sets `closed`, cancels the root
context, returns nil.  It does not touch the `cancellers` map and does
not close the `events`/`errors` channels. -/
def pollerClose (p : PollerState) : Option PErr × PollerState :=
  (none, { p with closed := true, cancelled := true })

/-- `Remove` (poller.go:93-110): a no-op success when closed;
otherwise cancels and deletes the watch, or reports
`ErrNonExistentWatch`. -/
def pollerRemove (p : PollerState) (name : Arelo.Str) : Option PErr × PollerState :=
  if p.closed then (none, p)
  else if name ∈ p.cancellers then
    (none, { p with cancellers := p.cancellers.erase name })
  else (some .errNonExistentWatch, p)

/-- `WatchList` (poller.go:113-122). -/
def watchList (p : PollerState) : List Arelo.Str :=
  p.cancellers

/-- The tail of the goroutine spawned by `Add` (poller.go:63-71):
when the polling loop returns, its context is cancelled and
`p.Remove(name)` deregisters the path. -/
def loopExitCleanup (p : PollerState) (name : Arelo.Str) : PollerState :=
  (pollerRemove p name).2

end fspoll

namespace Arelo

/-! ## The Tree Walker (arelo.go:279-329)

`addTargets` registers the configured target roots; `addDirRecursive`
walks a directory subtree, registers a watch on every directory,
skips ignored entries, optionally reports pattern-matching entries on
the channel `ch`, and recurses into subdirectories.  The filesystem is
a tree value; `os.Stat` outcomes are passed as `Option`. -/

/-- A filesystem subtree: a plain file, or a directory with named
children. -/
inductive FSNode where
  | file
  | dir (entries : List (Str × FSNode))

/-- The text of the `read dir` error wrap (arelo.go:305). -/
def readDirErrMsg : Str :=
  ['r', 'e', 'a', 'd', ' ', 'd', 'i', 'r']

/-- The text of the `stat` error wrap (arelo.go:284). -/
def statErrMsg : Str :=
  ['s', 't', 'a', 't']

/-- The optional report step of the entry loop (arelo.go:314-320):
`if ch != nil { if match, err := matchPatterns(name, patterns); ... }`.
Returns the paths sent on `ch` (at most the entry's own path). -/
def reportStep (g : Glob) (patterns : List Str) (ch : Bool) (name : Str) :
    Except Str (List Str) :=
  if ch then
    match matchPatterns g name patterns with
    | .error e => .error (matchPatternsMsg ++ e)
    | .ok true => .ok [name]
    | .ok false => .ok []
  else .ok []

mutual

/-- `addDirRecursive` (arelo.go:297-329) on the subtree rooted at `t`:
watch `t`, read its entries, process them in order.  `ch` tells
whether the reporting channel is non-nil.  Returns the watched paths
and the reported paths, in order. -/
def addDirRecursive (g : Glob) (patterns ignores : List Str) (ch : Bool)
    (t : Str) : FSNode → Except Str (List Str × List Str)
  | .file => .error readDirErrMsg
  | .dir entries =>
    match walkEntries g patterns ignores ch t entries with
    | .error e => .error e
    | .ok (ws, rs) => .ok (t :: ws, rs)

/-- The entry loop of `addDirRecursive` (arelo.go:307-327): ignore
matching first (skip), then the optional report when the channel is
present and the name matches a trigger pattern, then recursion into
subdirectories. -/
def walkEntries (g : Glob) (patterns ignores : List Str) (ch : Bool)
    (t : Str) : List (Str × FSNode) → Except Str (List Str × List Str)
  | [] => .ok ([], [])
  | (nm, child) :: rest =>
    let name := fspoll.joinPath t nm
    match matchPatterns g name ignores with
    | .error e => .error (matchIgnoresMsg ++ e)
    | .ok true => walkEntries g patterns ignores ch t rest
    | .ok false =>
      match reportStep g patterns ch name with
      | .error e => .error e
      | .ok rs1 =>
        match child with
        | .file =>
          match walkEntries g patterns ignores ch t rest with
          | .error e => .error e
          | .ok (ws, rs) => .ok (ws, rs1 ++ rs)
        | .dir es =>
          match addDirRecursive g patterns ignores ch name (.dir es) with
          | .error e => .error e
          | .ok (ws2, rs2) =>
            match walkEntries g patterns ignores ch t rest with
            | .error e => .error e
            | .ok (ws3, rs3) => .ok (ws2 ++ ws3, rs1 ++ rs2 ++ rs3)

end

/-- `addTargets` (arelo.go:279-295): for each target, stat it; on a
stat error return it; a directory target is walked by
`addDirRecursive` with a NIL report channel — and its result returned
at once, ending the loop; a file target is watched directly.  Each
target comes with the `os.Stat` outcome (`none` = stat error). -/
def addTargets (g : Glob) (patterns ignores : List Str) :
    List (Str × Option FSNode) → Except Str (List Str × List Str)
  | [] => .ok ([], [])
  | (_, none) :: _ => .error statErrMsg
  | (t, some node) :: rest =>
    match node with
    | .dir es => addDirRecursive g patterns ignores false t (.dir es)
    | .file =>
      match addTargets g patterns ignores rest with
      | .error e => .error e
      | .ok (ws, rs) => .ok (t :: ws, rs)

/-- The directory-creation branch of the router (arelo.go:238-251):
stat the created path (errors are logged and skipped; files are not
walked); a directory is walked by `addDirRecursive` with the event
channel `modC` passed as the report channel. -/
def watcherCreateWalk (g : Glob) (patterns ignores : List Str) (name : Str)
    (st : Option FSNode) : Except Str (List Str × List Str) :=
  match st with
  | none => .ok ([], [])
  | some .file => .ok ([], [])
  | some (.dir es) => addDirRecursive g patterns ignores true name (.dir es)

end Arelo

/-- C1: if the event path matches any ignore pattern, the router step
discards the event entirely: no trigger is forwarded (and no walk is
requested), even when the path also matches a trigger pattern; the
ignore test is evaluated first. -/
theorem c1_ignore_precedence (g : Arelo.Glob) (patterns ignores : List Arelo.Str)
    (filtOp : List Arelo.Op) (ev : Arelo.Event) (st : Arelo.StatRes)
    (h : Arelo.matchPatterns g ev.name ignores = .ok true) :
    Arelo.routerStep g patterns ignores filtOp ev st = .ok [] := by
  unfold Arelo.routerStep
  rw [h]

/-- C1 witness: a concrete event whose path matches both an ignore
pattern and a trigger pattern produces no output. -/
theorem c1_ignore_precedence_witness :
    Arelo.matchPatterns Arelo.eqGlob ['a'] [['a']] = .ok true ∧
    Arelo.routerStep Arelo.eqGlob [['a']] [['a']] [] ⟨['a'], [Arelo.Op.write]⟩ (.ok false) = .ok [] := by
  constructor
  · rfl
  · exact c1_ignore_precedence Arelo.eqGlob [['a']] [['a']] [] ⟨['a'], [Arelo.Op.write]⟩ (.ok false) (by rfl)

/-- C10: `./`-prefix normalization.  For a candidate path `t` and a
pattern `p` not themselves starting with `./`, writing either of them
with or without a leading `./` yields the same match result: the
candidate is stripped inside `matchPatterns`, the pattern by the
startup `removeCurDirPrefix` pass. -/
theorem c10_curdir_prefix_normalization (g : Arelo.Glob) (t p : Arelo.Str)
    (ps : List Arelo.Str)
    (ht : Arelo.hasCurDirPrefix t = false) (hp : Arelo.hasCurDirPrefix p = false) :
    Arelo.matchPatterns g ('.' :: '/' :: t) (Arelo.removeCurDirPrefix (p :: ps))
      = Arelo.matchPatterns g t (Arelo.removeCurDirPrefix (p :: ps)) ∧
    Arelo.matchPatterns g t (Arelo.removeCurDirPrefix (('.' :: '/' :: p) :: ps))
      = Arelo.matchPatterns g t (Arelo.removeCurDirPrefix (p :: ps)) := by
  constructor
  · unfold Arelo.matchPatterns
    have h1 : Arelo.stripCurDir ('.' :: '/' :: t) = t := by
      simp [Arelo.stripCurDir, Arelo.hasCurDirPrefix]
    have h2 : Arelo.stripCurDir t = t := by
      simp [Arelo.stripCurDir, ht]
    rw [h1, h2]
  · unfold Arelo.removeCurDirPrefix
    have h1 : Arelo.stripCurDir ('.' :: '/' :: p) = p := by
      simp [Arelo.stripCurDir, Arelo.hasCurDirPrefix]
    have h2 : Arelo.stripCurDir p = p := by
      simp [Arelo.stripCurDir, hp]
    simp [h1, h2]

/-- Helper: a relay window that starts with the Supervisor not ready
delivers nothing. -/
theorem relayWindow_notReady (ns : List Arelo.Str) :
    Arelo.relayWindow false ns = [] := by
  induction ns with
  | nil => rfl
  | cons n ns ih => simp [Arelo.relayWindow, ih]

/-- Helper: the relay partitions the arrivals into delivered and
dropped; nothing is queued and nothing blocks. -/
theorem relayWindow_partition (ready : Bool) (ns : List Arelo.Str) :
    (Arelo.relayWindow ready ns).length + (Arelo.relayWindowDropped ready ns).length
      = ns.length := by
  induction ns generalizing ready with
  | nil => rfl
  | cons n ns ih =>
    cases ready with
    | false =>
      have h := ih false
      show (Arelo.relayWindow false ns).length
          + (n :: Arelo.relayWindowDropped false ns).length = (n :: ns).length
      simp only [List.length_cons]
      omega
    | true =>
      have h := ih false
      show (n :: Arelo.relayWindow false ns).length
          + (Arelo.relayWindowDropped false ns).length = (n :: ns).length
      simp only [List.length_cons]
      omega

/-- C6: the debounce relay never blocks the Router — every arrival in a
window is either delivered or dropped at once (the delivered and
dropped lists partition the arrivals); an arrival while the Supervisor
is not ready is dropped, not queued; and at most one trigger message
reaches the Supervisor per debounce window. -/
theorem c6_debounce_relay (ready : Bool) (ns : List Arelo.Str) :
    (Arelo.relayWindow ready ns).length + (Arelo.relayWindowDropped ready ns).length
        = ns.length ∧
    Arelo.relayWindow false ns = [] ∧
    (Arelo.relayWindow ready ns).length ≤ 1 := by
  refine ⟨relayWindow_partition ready ns, relayWindow_notReady ns, ?_⟩
  cases ns with
  | nil => cases ready <;> simp [Arelo.relayWindow]
  | cons n ns =>
    cases ready with
    | false =>
      show (Arelo.relayWindow false ns).length ≤ 1
      simp [relayWindow_notReady ns]
    | true =>
      show (n :: Arelo.relayWindow false ns).length ≤ 1
      simp [relayWindow_notReady ns]

/-- Helper: the Supervisor-loop invariant is preserved by every
transition. -/
theorem rinv_step {s t : Arelo.RState} (hs : Arelo.RInv s) (st : Arelo.RStep s t) :
    Arelo.RInv t := by
  cases st with
  | exitAtCheck l => exact hs
  | start l =>
    have hl : l = 0 := hs
    show l + 1 = 1
    omega
  | shutdownFromRunning l =>
    have hl : l + 1 = 1 := hs
    show l = 0
    omega
  | triggered l => exact hs
  | shutdownFromDelaying l =>
    have hl : l + 1 = 1 := hs
    show l = 0
    omega
  | delayElapsed l =>
    have hl : l + 1 = 1 := hs
    show l = 0
    omega

/-- Helper: every reachable Supervisor state satisfies the invariant. -/
theorem rinv_reach (s : Arelo.RState) (h : Arelo.RReach s) : Arelo.RInv s := by
  induction h with
  | init => exact rfl
  | step _ st ih => exact rinv_step ih st

/-- Helper: the invariant bounds the number of live children by one. -/
theorem rinv_live_le {s : Arelo.RState} (hs : Arelo.RInv s) : s.live ≤ 1 := by
  obtain ⟨p, l⟩ := s
  cases p with
  | check => have h : l = 0 := hs; show l ≤ 1; omega
  | running => have h : l = 1 := hs; show l ≤ 1; omega
  | delaying => have h : l = 1 := hs; show l ≤ 1; omega
  | stopped => have h : l = 0 := hs; show l ≤ 1; omega

/-- C2: in every reachable Supervisor state at most one child is live
(started and not yet reaped via the `done` channel), and any transition
that starts a new child fires only from a state with zero live
children — i.e. only after the previous child's wait has completed,
both on trigger/exit restarts and on shutdown paths. -/
theorem c2_single_child (s : Arelo.RState) (h : Arelo.RReach s) :
    s.live ≤ 1 ∧
    (∀ t, Arelo.RStep s t → t.phase = Arelo.RPhase.running → s.live = 0) := by
  have inv := rinv_reach s h
  refine ⟨rinv_live_le inv, ?_⟩
  intro t st hp
  cases st with
  | exitAtCheck l => exact absurd hp (by intro hh; cases hh)
  | start l => exact inv
  | shutdownFromRunning l => exact absurd hp (by intro hh; cases hh)
  | triggered l => exact absurd hp (by intro hh; cases hh)
  | shutdownFromDelaying l => exact absurd hp (by intro hh; cases hh)
  | delayElapsed l => exact absurd hp (by intro hh; cases hh)

/-- C2 witness: the invariant instantiated at the loop's entry state. -/
theorem c2_single_child_witness :
    (⟨Arelo.RPhase.check, 0⟩ : Arelo.RState).live ≤ 1 ∧
    (∀ t, Arelo.RStep ⟨Arelo.RPhase.check, 0⟩ t → t.phase = Arelo.RPhase.running →
      (⟨Arelo.RPhase.check, 0⟩ : Arelo.RState).live = 0) :=
  c2_single_child ⟨Arelo.RPhase.check, 0⟩ Arelo.RReach.init

/-- C7 counterexample: when the initial `syscall.Kill` fails, no
continue signal is sent even though the requested signal is neither
SIGKILL nor SIGCONT, and the teardown never reaches the grace-window
stage — the claim's unconditional escalation description is false on
the code. -/
theorem c7_escalation_counterexample :
    Arelo.Signal.sigterm ≠ Arelo.Signal.sigkill ∧
    Arelo.Signal.sigterm ≠ Arelo.Signal.sigcont ∧
    (Arelo.runCmdTeardown 42 (fun _ => some ['E']) Arelo.Signal.sigterm false).sent
      = [(-42, Arelo.Signal.sigterm)] ∧
    (-42, Arelo.Signal.sigcont) ∉
      (Arelo.runCmdTeardown 42 (fun _ => some ['E']) Arelo.Signal.sigterm false).sent ∧
    (Arelo.runCmdTeardown 42 (fun _ => some ['E']) Arelo.Signal.sigterm false).forced
      = false := by
  decide

/-- C7 (amended): provided the kill syscalls succeed, the requested
signal S goes to the whole process group; a continue signal follows iff
S is neither SIGKILL nor SIGCONT; and the force-kill stage (SIGKILL to
the group, then the unconditional wait) runs iff the child has not
exited within the `waitForTerm` grace window. -/
theorem c7_escalation_amended (pid : Int) (kill : Arelo.Signal → Option Arelo.Str)
    (sig : Arelo.Signal) (exits : Bool) (hk : ∀ s, kill s = none) :
    (Arelo.runCmdTeardown pid kill sig exits).sent
      = ([(-pid, sig)]
          ++ (if sig ≠ Arelo.Signal.sigkill ∧ sig ≠ Arelo.Signal.sigcont
              then [(-pid, Arelo.Signal.sigcont)] else [])
          ++ (if exits then [] else [(-pid, Arelo.Signal.sigkill)])) ∧
    ((Arelo.runCmdTeardown pid kill sig exits).forced = true ↔ exits = false) := by
  by_cases hck : sig = Arelo.Signal.sigkill
  · subst hck
    cases exits <;> simp [Arelo.runCmdTeardown, Arelo.killChilds, hk]
  · by_cases hcc : sig = Arelo.Signal.sigcont
    · subst hcc
      cases exits <;> simp [Arelo.runCmdTeardown, Arelo.killChilds, hk]
    · cases exits <;> simp [Arelo.runCmdTeardown, Arelo.killChilds, hk, hck, hcc]

/-- C7 witness: SIGTERM with all kills succeeding and a child that does
not exit within the grace window. -/
theorem c7_escalation_amended_witness :
    (Arelo.runCmdTeardown 42 (fun _ => none) Arelo.Signal.sigterm false).sent
      = ([(-42, Arelo.Signal.sigterm)]
          ++ (if Arelo.Signal.sigterm ≠ Arelo.Signal.sigkill ∧
                 Arelo.Signal.sigterm ≠ Arelo.Signal.sigcont
              then [(-42, Arelo.Signal.sigcont)] else [])
          ++ (if false then [] else [(-42, Arelo.Signal.sigkill)])) ∧
    ((Arelo.runCmdTeardown 42 (fun _ => none) Arelo.Signal.sigterm false).forced = true
      ↔ false = false) :=
  c7_escalation_amended 42 (fun _ => none) Arelo.Signal.sigterm false (fun _ => rfl)

/-- C10 witness: concrete path `a` and pattern `a`, with and without
the `./` prefix. -/
theorem c10_curdir_prefix_normalization_witness :
    Arelo.hasCurDirPrefix ['a'] = false ∧
    (Arelo.matchPatterns Arelo.eqGlob ('.' :: '/' :: ['a']) (Arelo.removeCurDirPrefix (['a'] :: []))
      = Arelo.matchPatterns Arelo.eqGlob ['a'] (Arelo.removeCurDirPrefix (['a'] :: [])) ∧
     Arelo.matchPatterns Arelo.eqGlob ['a'] (Arelo.removeCurDirPrefix (('.' :: '/' :: ['a']) :: []))
      = Arelo.matchPatterns Arelo.eqGlob ['a'] (Arelo.removeCurDirPrefix (['a'] :: []))) :=
  ⟨by decide, c10_curdir_prefix_normalization Arelo.eqGlob ['a'] ['a'] [] (by decide) (by decide)⟩

/-- C4: `Add` on a path whose stat fails returns the stat error and
registers nothing (no loop started); `Add` on an already-watched path
returns nil and leaves the registration state unchanged (no second
polling loop). -/
theorem c4_add_stat_error_and_idempotent (p : fspoll.PollerState) (name : Arelo.Str)
    (e : Arelo.Str) (fi : fspoll.FInfo) (hc : p.closed = false) :
    fspoll.pollerAdd p name (.error e) = (some (.statErr e), p, false) ∧
    (name ∈ p.cancellers → fspoll.pollerAdd p name (.ok fi) = (none, p, false)) := by
  constructor
  · simp [fspoll.pollerAdd, hc]
  · intro hm
    simp [fspoll.pollerAdd, hc, hm]

/-- C4 witness: a poller already watching `a`. -/
theorem c4_add_stat_error_and_idempotent_witness :
    fspoll.pollerAdd ⟨false, false, [['a']], false, false⟩ ['a'] (.error ['E'])
      = (some (.statErr ['E']), ⟨false, false, [['a']], false, false⟩, false) ∧
    (['a'] ∈ (⟨false, false, [['a']], false, false⟩ : fspoll.PollerState).cancellers →
      fspoll.pollerAdd ⟨false, false, [['a']], false, false⟩ ['a'] (.ok ⟨0, 0, 0, false⟩)
        = (none, ⟨false, false, [['a']], false, false⟩, false)) :=
  c4_add_stat_error_and_idempotent ⟨false, false, [['a']], false, false⟩ ['a'] ['E']
    ⟨0, 0, 0, false⟩ rfl

/-- C5: evaluation of `Close` on a poller watching one path.  The
second call succeeds and changes nothing (idempotence holds), but the
events/errors channels are never closed — no statement in poller.go
closes them — and the `cancellers` registration map is left intact
(`Remove` is a no-op once `closed` is set), contradicting `Close`'s
own doc comment ("stops all watches and closes the channels"), the
package test (which requires both channels to be closed after
`Close`), and the claim. -/
theorem c5_close_streams_never_closed :
    fspoll.pollerClose ⟨false, false, [['a']], false, false⟩
      = (none, ⟨true, true, [['a']], false, false⟩) ∧
    fspoll.pollerClose ⟨true, true, [['a']], false, false⟩
      = (none, ⟨true, true, [['a']], false, false⟩) ∧
    (⟨true, true, [['a']], false, false⟩ : fspoll.PollerState).eventsClosed = false ∧
    (⟨true, true, [['a']], false, false⟩ : fspoll.PollerState).errorsClosed = false ∧
    fspoll.watchList (⟨true, true, [['a']], false, false⟩ : fspoll.PollerState) = [['a']] ∧
    fspoll.loopExitCleanup ⟨true, true, [['a']], false, false⟩ ['a']
      = ⟨true, true, [['a']], false, false⟩ := by
  decide

/-- C9: a watched path that no longer exists ends that path's polling
loop with no error sent (the dir loop also sends no event; the file
loop sends a final `Remove` event, still no error), and the goroutine
epilogue deregisters the path, so it is not in the watch list
afterwards. -/
theorem c9_removed_path_silent_deregistration (name : Arelo.Str) (mode modt size : Nat)
    (prev : List (Arelo.Str × fspoll.Stat)) (rd : fspoll.ReadDirRes) (fi : fspoll.FInfo)
    (p : fspoll.PollerState) (hc : p.closed = false) (hnd : p.cancellers.Nodup) :
    (fspoll.pollDirTick name mode prev .notExist rd).outcome = .stop ∧
    (fspoll.pollDirTick name mode prev .notExist rd).errors = [] ∧
    (fspoll.pollDirTick name mode prev .notExist rd).events = [] ∧
    (fspoll.pollDirTick name mode prev (.ok fi) .notExist).outcome = .stop ∧
    (fspoll.pollDirTick name mode prev (.ok fi) .notExist).errors = [] ∧
    (fspoll.pollFileTick name mode modt size .notExist).outcome = .stop ∧
    (fspoll.pollFileTick name mode modt size .notExist).errors = [] ∧
    name ∉ fspoll.watchList (fspoll.loopExitCleanup p name) := by
  refine ⟨rfl, rfl, rfl, rfl, rfl, rfl, rfl, ?_⟩
  unfold fspoll.loopExitCleanup fspoll.pollerRemove
  rw [hc]
  by_cases hm : name ∈ p.cancellers
  · simp only [Bool.false_eq_true, if_false, if_pos hm, fspoll.watchList]
    exact fun h => (hnd.mem_erase_iff.mp h).1 rfl
  · simp only [Bool.false_eq_true, if_false, if_neg hm, fspoll.watchList]
    exact hm

/-- C9 witness: a poller watching `a`, whose path has vanished. -/
theorem c9_removed_path_silent_deregistration_witness :
    (fspoll.pollDirTick ['a'] 0 [] .notExist (.ok [])).outcome = .stop ∧
    (fspoll.pollDirTick ['a'] 0 [] .notExist (.ok [])).errors = [] ∧
    (fspoll.pollDirTick ['a'] 0 [] .notExist (.ok [])).events = [] ∧
    (fspoll.pollDirTick ['a'] 0 [] (.ok ⟨0, 0, 0, true⟩) .notExist).outcome = .stop ∧
    (fspoll.pollDirTick ['a'] 0 [] (.ok ⟨0, 0, 0, true⟩) .notExist).errors = [] ∧
    (fspoll.pollFileTick ['a'] 0 0 0 .notExist).outcome = .stop ∧
    (fspoll.pollFileTick ['a'] 0 0 0 .notExist).errors = [] ∧
    ['a'] ∉ fspoll.watchList
      (fspoll.loopExitCleanup ⟨false, false, [['a']], false, false⟩ ['a']) :=
  c9_removed_path_silent_deregistration ['a'] 0 0 0 [] (.ok []) ⟨0, 0, 0, true⟩
    ⟨false, false, [['a']], false, false⟩ rfl (by decide)

/-- Helper: erasing one key leaves lookups of other keys unchanged. -/
theorem lookupStat_eraseStat_ne (m : List (Arelo.Str × fspoll.Stat)) (k d : Arelo.Str)
    (h : k ≠ d) :
    fspoll.lookupStat (fspoll.eraseStat m d) k = fspoll.lookupStat m k := by
  induction m with
  | nil => rfl
  | cons p rest ih =>
    obtain ⟨n, s⟩ := p
    show fspoll.lookupStat (if n = d then rest else (n, s) :: fspoll.eraseStat rest d) k
        = if n = k then some s else fspoll.lookupStat rest k
    by_cases hn : n = d
    · rw [if_pos hn, if_neg (fun hk => h (hk.symm.trans hn))]
    · rw [if_neg hn]
      show (if n = k then some s else fspoll.lookupStat (fspoll.eraseStat rest d) k)
          = if n = k then some s else fspoll.lookupStat rest k
      by_cases hk : n = k
      · rw [if_pos hk, if_pos hk]
      · rw [if_neg hk, if_neg hk, ih]

/-- Helper: a key present after an erase was present before. -/
theorem mem_fst_eraseStat {m : List (Arelo.Str × fspoll.Stat)} {d k : Arelo.Str}
    (h : k ∈ (fspoll.eraseStat m d).map Prod.fst) : k ∈ m.map Prod.fst := by
  induction m with
  | nil => exact absurd h (List.not_mem_nil k)
  | cons p rest ih =>
    obtain ⟨n, s⟩ := p
    by_cases hn : n = d
    · subst hn
      simp only [fspoll.eraseStat, if_pos rfl] at h
      simp only [List.map_cons, List.mem_cons]
      exact Or.inr h
    · simp only [fspoll.eraseStat, if_neg hn, List.map_cons, List.mem_cons] at h ⊢
      rcases h with h | h
      · exact Or.inl h
      · exact Or.inr (ih h)

/-- Helper: erasing a different key preserves a key's presence. -/
theorem mem_fst_eraseStat_ne {m : List (Arelo.Str × fspoll.Stat)} {d k : Arelo.Str}
    (hne : k ≠ d) (h : k ∈ m.map Prod.fst) :
    k ∈ (fspoll.eraseStat m d).map Prod.fst := by
  induction m with
  | nil => exact absurd h (List.not_mem_nil k)
  | cons p rest ih =>
    obtain ⟨n, s⟩ := p
    simp only [List.map_cons, List.mem_cons] at h
    by_cases hn : n = d
    · subst hn
      simp only [fspoll.eraseStat, if_pos rfl]
      rcases h with h | h
      · exact absurd h hne
      · exact h
    · simp only [fspoll.eraseStat, if_neg hn, List.map_cons, List.mem_cons]
      rcases h with h | h
      · exact Or.inl h
      · exact Or.inr (ih h)

/-- Helper: the directory path differs from any of its child paths. -/
theorem ne_joinPath (dir base : Arelo.Str) : dir ≠ fspoll.joinPath dir base := by
  intro h
  have hl := congrArg List.length h
  simp [fspoll.joinPath] at hl

/-- Helper: joining with the same directory is injective in the base
name. -/
theorem joinPath_inj {dir b1 b2 : Arelo.Str}
    (h : fspoll.joinPath dir b1 = fspoll.joinPath dir b2) : b1 = b2 := by
  unfold fspoll.joinPath at h
  simpa using h

/-- Helper: a scanned entry absent from `prev` yields a `Create`
event. -/
theorem dirEntsStep_create_mem (dir : Arelo.Str) (ents : List fspoll.DirEnt) :
    ∀ (prev cur : List (Arelo.Str × fspoll.Stat)),
    (ents.map fspoll.DirEnt.name).Nodup →
    ∀ de ∈ ents, ∀ fi, de.info = .ok fi →
    fspoll.lookupStat prev de.name = none →
    (⟨fspoll.joinPath dir de.name, Arelo.Op.create⟩ : fspoll.PEvent)
      ∈ (fspoll.dirEntsStep dir prev cur ents).1 := by
  induction ents with
  | nil => intro prev cur _ de hde; exact absurd hde (List.not_mem_nil de)
  | cons e rest ih =>
    intro prev cur hnd de hde fi hfi hlk
    obtain ⟨en, einfo⟩ := e
    rw [List.map_cons, List.nodup_cons] at hnd
    obtain ⟨hen, hndr⟩ := hnd
    rcases List.mem_cons.mp hde with heq | htl
    · subst heq
      cases hfi
      simp only [fspoll.dirEntsStep, hlk]
      exact List.mem_cons_self _ _
    · clear hde
      have hmem : de.name ∈ rest.map fspoll.DirEnt.name := List.mem_map_of_mem _ htl
      cases einfo with
      | notExist =>
        simp only [fspoll.dirEntsStep]
        exact List.mem_cons_of_mem _ (ih prev cur hndr de htl fi hfi hlk)
      | errOther e2 =>
        simp only [fspoll.dirEntsStep]
        exact ih prev cur hndr de htl fi hfi hlk
      | ok efi =>
        cases hlk2 : fspoll.lookupStat prev en with
        | none =>
          simp only [fspoll.dirEntsStep, hlk2]
          exact List.mem_cons_of_mem _ (ih prev _ hndr de htl fi hfi hlk)
        | some ps =>
          have hne : de.name ≠ en := fun hh => hen (hh ▸ hmem)
          have hlk' : fspoll.lookupStat (fspoll.eraseStat prev en) de.name = none := by
            rw [lookupStat_eraseStat_ne prev de.name en hne]; exact hlk
          simp only [fspoll.dirEntsStep, hlk2]
          exact List.mem_append_right _ (ih _ _ hndr de htl fi hfi hlk')

/-- Helper: a scanned entry present in `prev` yields a `Chmod` event on
a mode change and, when it is not a directory, a `Write` event on a
`(modtime, size)` change. -/
theorem dirEntsStep_changed_mem (dir : Arelo.Str) (ents : List fspoll.DirEnt) :
    ∀ (prev cur : List (Arelo.Str × fspoll.Stat)),
    (ents.map fspoll.DirEnt.name).Nodup →
    ∀ de ∈ ents, ∀ fi ps, de.info = .ok fi →
    fspoll.lookupStat prev de.name = some ps →
    ((fspoll.makeStat fi).mode ≠ ps.mode →
      (⟨fspoll.joinPath dir de.name, Arelo.Op.chmod⟩ : fspoll.PEvent)
        ∈ (fspoll.dirEntsStep dir prev cur ents).1) ∧
    (fi.isDir = false → (fi.modtime ≠ ps.modtime ∨ fi.size ≠ ps.size) →
      (⟨fspoll.joinPath dir de.name, Arelo.Op.write⟩ : fspoll.PEvent)
        ∈ (fspoll.dirEntsStep dir prev cur ents).1) := by
  induction ents with
  | nil => intro prev cur _ de hde; exact absurd hde (List.not_mem_nil de)
  | cons e rest ih =>
    intro prev cur hnd de hde fi ps hfi hlk
    obtain ⟨en, einfo⟩ := e
    rw [List.map_cons, List.nodup_cons] at hnd
    obtain ⟨hen, hndr⟩ := hnd
    rcases List.mem_cons.mp hde with heq | htl
    · subst heq
      cases hfi
      constructor
      · intro hmode
        simp only [fspoll.dirEntsStep, hlk]
        apply List.mem_append_left
        apply List.mem_append_left
        rw [if_pos hmode]
        exact List.mem_singleton_self _
      · intro hdir hchg
        simp only [fspoll.dirEntsStep, hlk]
        apply List.mem_append_left
        apply List.mem_append_right
        rw [if_pos ⟨by simp [hdir], hchg⟩]
        exact List.mem_singleton_self _
    · clear hde
      have hmem : de.name ∈ rest.map fspoll.DirEnt.name := List.mem_map_of_mem _ htl
      cases einfo with
      | notExist =>
        have hrec := ih prev cur hndr de htl fi ps hfi hlk
        simp only [fspoll.dirEntsStep]
        exact ⟨fun h => List.mem_cons_of_mem _ (hrec.1 h),
               fun h1 h2 => List.mem_cons_of_mem _ (hrec.2 h1 h2)⟩
      | errOther e2 =>
        have hrec := ih prev cur hndr de htl fi ps hfi hlk
        simp only [fspoll.dirEntsStep]
        exact hrec
      | ok efi =>
        cases hlk2 : fspoll.lookupStat prev en with
        | none =>
          have hrec := ih prev (cur ++ [(en, fspoll.makeStat efi)]) hndr de htl fi ps hfi hlk
          simp only [fspoll.dirEntsStep, hlk2]
          exact ⟨fun h => List.mem_cons_of_mem _ (hrec.1 h),
                 fun h1 h2 => List.mem_cons_of_mem _ (hrec.2 h1 h2)⟩
        | some qs =>
          have hne : de.name ≠ en := fun hh => hen (hh ▸ hmem)
          have hlk' : fspoll.lookupStat (fspoll.eraseStat prev en) de.name = some ps := by
            rw [lookupStat_eraseStat_ne prev de.name en hne]; exact hlk
          have hrec := ih (fspoll.eraseStat prev en) (cur ++ [(en, fspoll.makeStat efi)])
            hndr de htl fi ps hfi hlk'
          simp only [fspoll.dirEntsStep, hlk2]
          exact ⟨fun h => List.mem_append_right _ (hrec.1 h),
                 fun h1 h2 => List.mem_append_right _ (hrec.2 h1 h2)⟩

/-- Helper: a `prev` key not named by any scanned entry survives the
per-entry loop into the residual map. -/
theorem dirEntsStep_prev_survives (dir : Arelo.Str) (ents : List fspoll.DirEnt) :
    ∀ (prev cur : List (Arelo.Str × fspoll.Stat)) (k : Arelo.Str),
    k ∈ prev.map Prod.fst → k ∉ ents.map fspoll.DirEnt.name →
    k ∈ (fspoll.dirEntsStep dir prev cur ents).2.2.1.map Prod.fst := by
  induction ents with
  | nil => intro prev cur k hk _; exact hk
  | cons e rest ih =>
    intro prev cur k hk hnotin
    obtain ⟨en, einfo⟩ := e
    rw [List.map_cons] at hnotin
    have hkne : k ≠ en := fun hh => hnotin (hh ▸ List.mem_cons_self _ _)
    have hnotin' : k ∉ rest.map fspoll.DirEnt.name :=
      fun hh => hnotin (List.mem_cons_of_mem _ hh)
    cases einfo with
    | notExist =>
      simp only [fspoll.dirEntsStep]
      exact ih prev cur k hk hnotin'
    | errOther e2 =>
      simp only [fspoll.dirEntsStep]
      exact ih prev cur k hk hnotin'
    | ok efi =>
      cases hlk2 : fspoll.lookupStat prev en with
      | none =>
        simp only [fspoll.dirEntsStep, hlk2]
        exact ih prev _ k hk hnotin'
      | some ps =>
        simp only [fspoll.dirEntsStep, hlk2]
        exact ih _ _ k (mem_fst_eraseStat_ne hkne hk) hnotin'

/-- Helper: every key of the residual map was a key of `prev`. -/
theorem dirEntsStep_prev_sub (dir : Arelo.Str) (ents : List fspoll.DirEnt) :
    ∀ (prev cur : List (Arelo.Str × fspoll.Stat)) (k : Arelo.Str),
    k ∈ (fspoll.dirEntsStep dir prev cur ents).2.2.1.map Prod.fst →
    k ∈ prev.map Prod.fst := by
  induction ents with
  | nil => intro prev cur k hk; exact hk
  | cons e rest ih =>
    intro prev cur k hk
    obtain ⟨en, einfo⟩ := e
    cases einfo with
    | notExist =>
      simp only [fspoll.dirEntsStep] at hk
      exact ih prev cur k hk
    | errOther e2 =>
      simp only [fspoll.dirEntsStep] at hk
      exact ih prev cur k hk
    | ok efi =>
      cases hlk2 : fspoll.lookupStat prev en with
      | none =>
        simp only [fspoll.dirEntsStep, hlk2] at hk
        exact ih prev _ k hk
      | some ps =>
        simp only [fspoll.dirEntsStep, hlk2] at hk
        exact mem_fst_eraseStat (ih _ _ k hk)

/-- Helper: every event of the per-entry loop names an immediate child
of the directory (for some scanned entry), and `Write` events come
only from non-directory entries. -/
theorem dirEntsStep_events_shape (dir : Arelo.Str) (ents : List fspoll.DirEnt) :
    ∀ (prev cur : List (Arelo.Str × fspoll.Stat)),
    ∀ ev ∈ (fspoll.dirEntsStep dir prev cur ents).1,
    ∃ de ∈ ents, ev.name = fspoll.joinPath dir de.name ∧
      (ev.op = Arelo.Op.write → ∃ fi, de.info = .ok fi ∧ fi.isDir = false) := by
  induction ents with
  | nil => intro prev cur ev hev; exact absurd hev (List.not_mem_nil ev)
  | cons e rest ih =>
    intro prev cur ev hev
    obtain ⟨en, einfo⟩ := e
    cases einfo with
    | notExist =>
      simp only [fspoll.dirEntsStep] at hev
      rcases List.mem_cons.mp hev with heq | htl
      · subst heq
        exact ⟨⟨en, .notExist⟩, List.mem_cons_self _ _, rfl, fun h => nomatch h⟩
      · obtain ⟨de, hde, hsh⟩ := ih prev cur ev htl
        exact ⟨de, List.mem_cons_of_mem _ hde, hsh⟩
    | errOther e2 =>
      simp only [fspoll.dirEntsStep] at hev
      obtain ⟨de, hde, hsh⟩ := ih prev cur ev hev
      exact ⟨de, List.mem_cons_of_mem _ hde, hsh⟩
    | ok efi =>
      cases hlk2 : fspoll.lookupStat prev en with
      | none =>
        simp only [fspoll.dirEntsStep, hlk2] at hev
        rcases List.mem_cons.mp hev with heq | htl
        · subst heq
          exact ⟨⟨en, .ok efi⟩, List.mem_cons_self _ _, rfl, fun h => nomatch h⟩
        · obtain ⟨de, hde, hsh⟩ := ih prev _ ev htl
          exact ⟨de, List.mem_cons_of_mem _ hde, hsh⟩
      | some ps =>
        simp only [fspoll.dirEntsStep, hlk2] at hev
        rcases List.mem_append.mp hev with hin | htl
        · rcases List.mem_append.mp hin with hc | hw
          · have hop : ev = ⟨fspoll.joinPath dir en, Arelo.Op.chmod⟩ := by
              by_cases hm : (fspoll.makeStat efi).mode ≠ ps.mode
              · rw [if_pos hm] at hc
                exact List.mem_singleton.mp hc
              · rw [if_neg hm] at hc
                exact absurd hc (List.not_mem_nil ev)
            subst hop
            exact ⟨⟨en, .ok efi⟩, List.mem_cons_self _ _, rfl, fun h => nomatch h⟩
          · by_cases hm : ¬efi.isDir ∧
                ((fspoll.makeStat efi).modtime ≠ ps.modtime ∨
                 (fspoll.makeStat efi).size ≠ ps.size)
            · rw [if_pos hm] at hw
              have hop := List.mem_singleton.mp hw
              subst hop
              refine ⟨⟨en, .ok efi⟩, List.mem_cons_self _ _, rfl, fun _ => ⟨efi, rfl, ?_⟩⟩
              rcases Bool.eq_false_or_eq_true efi.isDir with h | h
              · exact absurd h hm.1
              · exact h
            · rw [if_neg hm] at hw
              exact absurd hw (List.not_mem_nil ev)
        · obtain ⟨de, hde, hsh⟩ := ih _ _ ev htl
          exact ⟨de, List.mem_cons_of_mem _ hde, hsh⟩

/-- Helper: with nodup names, two scanned entries with the same name
are the same entry. -/
theorem dirent_name_inj {ents : List fspoll.DirEnt}
    (hnd : (ents.map fspoll.DirEnt.name).Nodup) {a b : fspoll.DirEnt}
    (ha : a ∈ ents) (hb : b ∈ ents) (hn : a.name = b.name) : a = b :=
  List.inj_on_of_nodup_map hnd ha hb hn

/-- C3: one `pollingDir` cycle (directory still present, readable)
falls through to the next tick and emits: a `Chmod` on the directory
itself when its own mode changed; `Create` for scanned children absent
from the previous entry map; `Remove` for previous entries no longer
listed; `Chmod` for children whose mode changed; `Write` for
non-directory children whose `(modtime, size)` changed — and never
`Write` for a directory child; every event names the directory itself
or one of its immediate children, so changes inside a subdirectory are
never reported by the parent's loop. -/
theorem c3_pollingDir_cycle (name : Arelo.Str) (mode : Nat)
    (prev : List (Arelo.Str × fspoll.Stat)) (dfi : fspoll.FInfo)
    (des : List fspoll.DirEnt)
    (hnd : (des.map fspoll.DirEnt.name).Nodup) :
    (fspoll.pollDirTick name mode prev (.ok dfi) (.ok des)).outcome = .next ∧
    (dfi.mode ≠ mode →
      (⟨name, Arelo.Op.chmod⟩ : fspoll.PEvent)
        ∈ (fspoll.pollDirTick name mode prev (.ok dfi) (.ok des)).events) ∧
    (∀ de ∈ des, ∀ fi, de.info = .ok fi →
      fspoll.lookupStat prev de.name = none →
      (⟨fspoll.joinPath name de.name, Arelo.Op.create⟩ : fspoll.PEvent)
        ∈ (fspoll.pollDirTick name mode prev (.ok dfi) (.ok des)).events) ∧
    (∀ k, k ∈ prev.map Prod.fst → k ∉ des.map fspoll.DirEnt.name →
      (⟨fspoll.joinPath name k, Arelo.Op.remove⟩ : fspoll.PEvent)
        ∈ (fspoll.pollDirTick name mode prev (.ok dfi) (.ok des)).events) ∧
    (∀ de ∈ des, ∀ fi ps, de.info = .ok fi →
      fspoll.lookupStat prev de.name = some ps →
      (fspoll.makeStat fi).mode ≠ ps.mode →
      (⟨fspoll.joinPath name de.name, Arelo.Op.chmod⟩ : fspoll.PEvent)
        ∈ (fspoll.pollDirTick name mode prev (.ok dfi) (.ok des)).events) ∧
    (∀ de ∈ des, ∀ fi ps, de.info = .ok fi →
      fspoll.lookupStat prev de.name = some ps →
      fi.isDir = false → (fi.modtime ≠ ps.modtime ∨ fi.size ≠ ps.size) →
      (⟨fspoll.joinPath name de.name, Arelo.Op.write⟩ : fspoll.PEvent)
        ∈ (fspoll.pollDirTick name mode prev (.ok dfi) (.ok des)).events) ∧
    (∀ de ∈ des, ∀ fi, de.info = .ok fi → fi.isDir = true →
      (⟨fspoll.joinPath name de.name, Arelo.Op.write⟩ : fspoll.PEvent)
        ∉ (fspoll.pollDirTick name mode prev (.ok dfi) (.ok des)).events) ∧
    (∀ ev ∈ (fspoll.pollDirTick name mode prev (.ok dfi) (.ok des)).events,
      ev.name = name ∨ ∃ base, ev.name = fspoll.joinPath name base ∧
        (base ∈ des.map fspoll.DirEnt.name ∨ base ∈ prev.map Prod.fst)) := by
  have hred : fspoll.pollDirTick name mode prev (.ok dfi) (.ok des)
      = ⟨.next,
         (if dfi.mode ≠ mode then [(⟨name, Arelo.Op.chmod⟩ : fspoll.PEvent)] else [])
           ++ (fspoll.dirEntsStep name prev [] des).1
           ++ (fspoll.dirEntsStep name prev [] des).2.2.1.map
                (fun p => (⟨fspoll.joinPath name p.1, Arelo.Op.remove⟩ : fspoll.PEvent)),
         (fspoll.dirEntsStep name prev [] des).2.1,
         (if dfi.mode ≠ mode then dfi.mode else mode),
         (fspoll.dirEntsStep name prev [] des).2.2.2⟩ := rfl
  rw [hred]
  refine ⟨rfl, ?_, ?_, ?_, ?_, ?_, ?_, ?_⟩
  · intro hm
    apply List.mem_append_left
    apply List.mem_append_left
    rw [if_pos hm]
    exact List.mem_singleton_self _
  · intro de hde fi hfi hlk
    exact List.mem_append_left _
      (List.mem_append_right _ (dirEntsStep_create_mem name des prev [] hnd de hde fi hfi hlk))
  · intro k hk hnotin
    apply List.mem_append_right
    have hsur := dirEntsStep_prev_survives name des prev [] k hk hnotin
    obtain ⟨p, hp, hpk⟩ := List.mem_map.mp hsur
    have hmm := List.mem_map_of_mem
      (fun p => (⟨fspoll.joinPath name p.1, Arelo.Op.remove⟩ : fspoll.PEvent)) hp
    rw [← hpk]
    exact hmm
  · intro de hde fi ps hfi hlk hm
    exact List.mem_append_left _
      (List.mem_append_right _
        ((dirEntsStep_changed_mem name des prev [] hnd de hde fi ps hfi hlk).1 hm))
  · intro de hde fi ps hfi hlk hdir hchg
    exact List.mem_append_left _
      (List.mem_append_right _
        ((dirEntsStep_changed_mem name des prev [] hnd de hde fi ps hfi hlk).2 hdir hchg))
  · intro de hde fi hfi hdir hmem
    rcases List.mem_append.mp hmem with hin | hrem
    · rcases List.mem_append.mp hin with h0 | h1
      · by_cases hm : dfi.mode ≠ mode
        · rw [if_pos hm] at h0
          have := List.mem_singleton.mp h0
          exact absurd (congrArg fspoll.PEvent.op this) (fun hh => nomatch hh)
        · rw [if_neg hm] at h0
          exact absurd h0 (List.not_mem_nil _)
      · obtain ⟨de2, hde2, hname, hwr⟩ := dirEntsStep_events_shape name des prev [] _ h1
        obtain ⟨fi2, hfi2, hdir2⟩ := hwr rfl
        have : de2 = de := dirent_name_inj hnd hde2 hde (joinPath_inj hname.symm)
        subst this
        rw [hfi] at hfi2
        cases hfi2
        rw [hdir] at hdir2
        exact absurd hdir2 (fun hh => nomatch hh)
    · obtain ⟨p, hp, hpe⟩ := List.mem_map.mp hrem
      exact absurd (congrArg fspoll.PEvent.op hpe) (fun hh => nomatch hh)
  · intro ev hev
    rcases List.mem_append.mp hev with hin | hrem
    · rcases List.mem_append.mp hin with h0 | h1
      · left
        by_cases hm : dfi.mode ≠ mode
        · rw [if_pos hm] at h0
          rw [List.mem_singleton.mp h0]
        · rw [if_neg hm] at h0
          exact absurd h0 (List.not_mem_nil _)
      · obtain ⟨de2, hde2, hname, _⟩ := dirEntsStep_events_shape name des prev [] ev h1
        exact Or.inr ⟨de2.name, hname, Or.inl (List.mem_map_of_mem _ hde2)⟩
    · obtain ⟨p, hp, hpe⟩ := List.mem_map.mp hrem
      refine Or.inr ⟨p.1, ?_, Or.inr (dirEntsStep_prev_sub name des prev [] p.1
        (List.mem_map_of_mem _ hp))⟩
      rw [← hpe]

/-- C3 witness: directory `d` whose own mode changed, with a modified
file `a`, a new file `c`, and a vanished entry `b`. -/
theorem c3_pollingDir_cycle_witness :
    (fspoll.pollDirTick ['d'] 0 [(['a'], ⟨0, 0, 0⟩), (['b'], ⟨0, 0, 0⟩)]
      (.ok ⟨1, 0, 0, true⟩)
      (.ok [⟨['a'], .ok ⟨7, 5, 9, false⟩⟩, ⟨['c'], .ok ⟨0, 0, 0, false⟩⟩])).outcome
        = .next ∧
    (⟨['d'], Arelo.Op.chmod⟩ : fspoll.PEvent)
      ∈ (fspoll.pollDirTick ['d'] 0 [(['a'], ⟨0, 0, 0⟩), (['b'], ⟨0, 0, 0⟩)]
          (.ok ⟨1, 0, 0, true⟩)
          (.ok [⟨['a'], .ok ⟨7, 5, 9, false⟩⟩, ⟨['c'], .ok ⟨0, 0, 0, false⟩⟩])).events ∧
    (⟨fspoll.joinPath ['d'] ['c'], Arelo.Op.create⟩ : fspoll.PEvent)
      ∈ (fspoll.pollDirTick ['d'] 0 [(['a'], ⟨0, 0, 0⟩), (['b'], ⟨0, 0, 0⟩)]
          (.ok ⟨1, 0, 0, true⟩)
          (.ok [⟨['a'], .ok ⟨7, 5, 9, false⟩⟩, ⟨['c'], .ok ⟨0, 0, 0, false⟩⟩])).events ∧
    (⟨fspoll.joinPath ['d'] ['b'], Arelo.Op.remove⟩ : fspoll.PEvent)
      ∈ (fspoll.pollDirTick ['d'] 0 [(['a'], ⟨0, 0, 0⟩), (['b'], ⟨0, 0, 0⟩)]
          (.ok ⟨1, 0, 0, true⟩)
          (.ok [⟨['a'], .ok ⟨7, 5, 9, false⟩⟩, ⟨['c'], .ok ⟨0, 0, 0, false⟩⟩])).events ∧
    (⟨fspoll.joinPath ['d'] ['a'], Arelo.Op.chmod⟩ : fspoll.PEvent)
      ∈ (fspoll.pollDirTick ['d'] 0 [(['a'], ⟨0, 0, 0⟩), (['b'], ⟨0, 0, 0⟩)]
          (.ok ⟨1, 0, 0, true⟩)
          (.ok [⟨['a'], .ok ⟨7, 5, 9, false⟩⟩, ⟨['c'], .ok ⟨0, 0, 0, false⟩⟩])).events ∧
    (⟨fspoll.joinPath ['d'] ['a'], Arelo.Op.write⟩ : fspoll.PEvent)
      ∈ (fspoll.pollDirTick ['d'] 0 [(['a'], ⟨0, 0, 0⟩), (['b'], ⟨0, 0, 0⟩)]
          (.ok ⟨1, 0, 0, true⟩)
          (.ok [⟨['a'], .ok ⟨7, 5, 9, false⟩⟩, ⟨['c'], .ok ⟨0, 0, 0, false⟩⟩])).events := by
  have h := c3_pollingDir_cycle ['d'] 0 [(['a'], ⟨0, 0, 0⟩), (['b'], ⟨0, 0, 0⟩)]
    ⟨1, 0, 0, true⟩ [⟨['a'], .ok ⟨7, 5, 9, false⟩⟩, ⟨['c'], .ok ⟨0, 0, 0, false⟩⟩]
    (by decide)
  refine ⟨h.1, h.2.1 (by decide), ?_, ?_, ?_, ?_⟩
  · exact h.2.2.1 ⟨['c'], .ok ⟨0, 0, 0, false⟩⟩ (by decide) ⟨0, 0, 0, false⟩ rfl (by decide)
  · exact h.2.2.2.1 ['b'] (by decide) (by decide)
  · exact h.2.2.2.2.1 ⟨['a'], .ok ⟨7, 5, 9, false⟩⟩ (by decide) ⟨7, 5, 9, false⟩ ⟨0, 0, 0⟩
      rfl (by decide) (by decide)
  · exact h.2.2.2.2.2.1 ⟨['a'], .ok ⟨7, 5, 9, false⟩⟩ (by decide) ⟨7, 5, 9, false⟩ ⟨0, 0, 0⟩
      rfl (by decide) rfl (Or.inl (by decide))

/-- Helper: what the optional report step can put on the channel: only
when the channel is present (`ch`), only the entry's own path, and only
when it matches a trigger pattern. -/
theorem rep_spec (g : Arelo.Glob) (patterns : List Arelo.Str) (ch : Bool)
    (name : Arelo.Str) (rs1 : List Arelo.Str)
    (h : Arelo.reportStep g patterns ch name = .ok rs1) :
    ∀ n ∈ rs1, ch = true ∧ n = name ∧ Arelo.matchPatterns g n patterns = .ok true := by
  cases ch with
  | false =>
    unfold Arelo.reportStep at h
    rw [if_neg (fun hh => nomatch hh)] at h
    injection h with h
    subst h
    intro n hn
    exact absurd hn (List.not_mem_nil n)
  | true =>
    unfold Arelo.reportStep at h
    rw [if_pos rfl] at h
    cases hmp : Arelo.matchPatterns g name patterns with
    | error e => rw [hmp] at h; exact nomatch h
    | ok b =>
      rw [hmp] at h
      cases b with
      | true =>
        have h2 : (Except.ok [name] : Except Arelo.Str (List Arelo.Str)) = .ok rs1 := h
        injection h2 with h2
        subst h2
        intro n hn
        have h3 := List.mem_singleton.mp hn
        subst h3
        exact ⟨rfl, rfl, hmp⟩
      | false =>
        have h2 : (Except.ok [] : Except Arelo.Str (List Arelo.Str)) = .ok rs1 := h
        injection h2 with h2
        subst h2
        intro n hn
        exact absurd hn (List.not_mem_nil n)

/-- Helper: anything `addDirRecursive` reports went through the report
step: the channel was present, the path matched a trigger pattern, and
it did not match an ignore pattern. -/
theorem addDir_report_spec (g : Arelo.Glob) (patterns ignores : List Arelo.Str)
    (ch : Bool) (t : Arelo.Str) (node : Arelo.FSNode) :
    ∀ ws rs, Arelo.addDirRecursive g patterns ignores ch t node = .ok (ws, rs) →
      ∀ n ∈ rs, ch = true ∧ Arelo.matchPatterns g n patterns = .ok true ∧
        Arelo.matchPatterns g n ignores = .ok false := by
  refine Arelo.addDirRecursive.induct g patterns ignores ch
    (fun t node => ∀ ws rs,
      Arelo.addDirRecursive g patterns ignores ch t node = .ok (ws, rs) →
      ∀ n ∈ rs, ch = true ∧ Arelo.matchPatterns g n patterns = .ok true ∧
        Arelo.matchPatterns g n ignores = .ok false)
    (fun t ents => ∀ ws rs,
      Arelo.walkEntries g patterns ignores ch t ents = .ok (ws, rs) →
      ∀ n ∈ rs, ch = true ∧ Arelo.matchPatterns g n patterns = .ok true ∧
        Arelo.matchPatterns g n ignores = .ok false)
    ?_ ?_ ?_ ?_ ?_ ?_ ?_ ?_ ?_ ?_ ?_ ?_ t node
  · intro t ws rs heq
    rw [Arelo.addDirRecursive.eq_1] at heq
    exact nomatch heq
  · intro t entries e hw _ ws rs heq
    rw [Arelo.addDirRecursive.eq_2, hw] at heq
    exact nomatch heq
  · intro t entries ws rs hw ih ws2 rs2 heq
    rw [Arelo.addDirRecursive.eq_2, hw] at heq
    have heq2 : (Except.ok (t :: ws, rs) :
        Except Arelo.Str (List Arelo.Str × List Arelo.Str)) = .ok (ws2, rs2) := heq
    injection heq2 with h3
    injection h3 with h4 h5
    subst h5
    exact ih ws rs hw
  · intro t ws rs heq
    rw [Arelo.walkEntries.eq_1] at heq
    have heq2 : (Except.ok (([] : List Arelo.Str), ([] : List Arelo.Str)) :
        Except Arelo.Str (List Arelo.Str × List Arelo.Str)) = .ok (ws, rs) := heq
    injection heq2 with h3
    injection h3 with h4 h5
    subst h5
    intro n hn
    exact absurd hn (List.not_mem_nil n)
  · intro t nm child rest name e hig ws rs heq
    have hig2 : Arelo.matchPatterns g (fspoll.joinPath t nm) ignores = .error e := hig
    rw [Arelo.walkEntries.eq_2, hig2] at heq
    exact nomatch heq
  · intro t nm child rest name hig ih ws rs heq
    have hig2 : Arelo.matchPatterns g (fspoll.joinPath t nm) ignores = .ok true := hig
    rw [Arelo.walkEntries.eq_2, hig2] at heq
    exact ih ws rs heq
  · intro t nm child rest name hig e hrep ws rs heq
    have hig2 : Arelo.matchPatterns g (fspoll.joinPath t nm) ignores = .ok false := hig
    have hrep2 : Arelo.reportStep g patterns ch (fspoll.joinPath t nm) = .error e := hrep
    rw [Arelo.walkEntries.eq_2, hig2, hrep2] at heq
    exact nomatch heq
  · intro t nm rest name hig rs1 hrep e hw _ ws rs heq
    have hig2 : Arelo.matchPatterns g (fspoll.joinPath t nm) ignores = .ok false := hig
    have hrep2 : Arelo.reportStep g patterns ch (fspoll.joinPath t nm) = .ok rs1 := hrep
    rw [Arelo.walkEntries.eq_2, hig2, hrep2, hw] at heq
    exact nomatch heq
  · intro t nm rest name hig rs1 hrep ws rs hw ih ws2 rs2 heq
    have hig2 : Arelo.matchPatterns g (fspoll.joinPath t nm) ignores = .ok false := hig
    have hrep2 : Arelo.reportStep g patterns ch (fspoll.joinPath t nm) = .ok rs1 := hrep
    rw [Arelo.walkEntries.eq_2, hig2, hrep2, hw] at heq
    have heq2 : (Except.ok (ws, rs1 ++ rs) :
        Except Arelo.Str (List Arelo.Str × List Arelo.Str)) = .ok (ws2, rs2) := heq
    injection heq2 with h3
    injection h3 with h4 h5
    subst h5
    intro n hn
    rcases List.mem_append.mp hn with hn1 | hn2
    · obtain ⟨hch, hname, hmp⟩ := rep_spec g patterns ch (fspoll.joinPath t nm) rs1 hrep2 n hn1
      exact ⟨hch, hmp, hname ▸ hig2⟩
    · exact ih ws rs hw n hn2
  · intro t nm rest name hig rs1 hrep entries e hadd _ ws rs heq
    have hig2 : Arelo.matchPatterns g (fspoll.joinPath t nm) ignores = .ok false := hig
    have hrep2 : Arelo.reportStep g patterns ch (fspoll.joinPath t nm) = .ok rs1 := hrep
    have hadd2 : Arelo.addDirRecursive g patterns ignores ch (fspoll.joinPath t nm)
        (Arelo.FSNode.dir entries) = .error e := hadd
    rw [Arelo.walkEntries.eq_2, hig2, hrep2] at heq
    have heq3 : (match Arelo.addDirRecursive g patterns ignores ch (fspoll.joinPath t nm)
          (Arelo.FSNode.dir entries) with
        | Except.error e2 => Except.error e2
        | Except.ok (ws2, rs2) =>
          match Arelo.walkEntries g patterns ignores ch t rest with
          | Except.error e2 => Except.error e2
          | Except.ok (ws3, rs3) => Except.ok (ws2 ++ ws3, rs1 ++ rs2 ++ rs3))
        = Except.ok (ws, rs) := heq
    rw [hadd2] at heq3
    exact nomatch heq3
  · intro t nm rest name hig rs1 hrep entries ws rs hadd e hw _ _ ws2 rs2 heq
    have hig2 : Arelo.matchPatterns g (fspoll.joinPath t nm) ignores = .ok false := hig
    have hrep2 : Arelo.reportStep g patterns ch (fspoll.joinPath t nm) = .ok rs1 := hrep
    have hadd2 : Arelo.addDirRecursive g patterns ignores ch (fspoll.joinPath t nm)
        (Arelo.FSNode.dir entries) = .ok (ws, rs) := hadd
    rw [Arelo.walkEntries.eq_2, hig2, hrep2] at heq
    have heq3 : (match Arelo.addDirRecursive g patterns ignores ch (fspoll.joinPath t nm)
          (Arelo.FSNode.dir entries) with
        | Except.error e2 => Except.error e2
        | Except.ok (ws4, rs4) =>
          match Arelo.walkEntries g patterns ignores ch t rest with
          | Except.error e2 => Except.error e2
          | Except.ok (ws3, rs3) => Except.ok (ws4 ++ ws3, rs1 ++ rs4 ++ rs3))
        = Except.ok (ws2, rs2) := heq
    rw [hadd2, hw] at heq3
    exact nomatch heq3
  · intro t nm rest name hig rs1 hrep entries ws rs hadd ws3 rs3 hw ihadd ih ws2 rs2 heq
    have hig2 : Arelo.matchPatterns g (fspoll.joinPath t nm) ignores = .ok false := hig
    have hrep2 : Arelo.reportStep g patterns ch (fspoll.joinPath t nm) = .ok rs1 := hrep
    have hadd2 : Arelo.addDirRecursive g patterns ignores ch (fspoll.joinPath t nm)
        (Arelo.FSNode.dir entries) = .ok (ws, rs) := hadd
    rw [Arelo.walkEntries.eq_2, hig2, hrep2] at heq
    have heq3 : (match Arelo.addDirRecursive g patterns ignores ch (fspoll.joinPath t nm)
          (Arelo.FSNode.dir entries) with
        | Except.error e2 => Except.error e2
        | Except.ok (ws4, rs4) =>
          match Arelo.walkEntries g patterns ignores ch t rest with
          | Except.error e2 => Except.error e2
          | Except.ok (ws5, rs5) => Except.ok (ws4 ++ ws5, rs1 ++ rs4 ++ rs5))
        = Except.ok (ws2, rs2) := heq
    rw [hadd2, hw] at heq3
    have heq2 : (Except.ok (ws ++ ws3, rs1 ++ rs ++ rs3) :
        Except Arelo.Str (List Arelo.Str × List Arelo.Str)) = .ok (ws2, rs2) := heq3
    injection heq2 with h3
    injection h3 with h4 h5
    subst h5
    intro n hn
    rcases List.mem_append.mp hn with hn1 | hn3
    · rcases List.mem_append.mp hn1 with hn1 | hn2
      · obtain ⟨hch, hname, hmp⟩ := rep_spec g patterns ch (fspoll.joinPath t nm) rs1 hrep2 n hn1
        exact ⟨hch, hmp, hname ▸ hig2⟩
      · exact ihadd ws rs hadd2 n hn2
    · exact ih ws3 rs3 hw n hn3

/-- Helper: the startup pass never reports: `addTargets` passes a nil
channel to every walk. -/
theorem addTargets_noreport (g : Arelo.Glob) (patterns ignores : List Arelo.Str) :
    ∀ (ts : List (Arelo.Str × Option Arelo.FSNode)) (ws rs : List Arelo.Str),
      Arelo.addTargets g patterns ignores ts = .ok (ws, rs) → rs = [] := by
  intro ts
  induction ts with
  | nil =>
    intro ws rs heq
    have heq2 : (Except.ok (([] : List Arelo.Str), ([] : List Arelo.Str)) :
        Except Arelo.Str (List Arelo.Str × List Arelo.Str)) = .ok (ws, rs) := heq
    injection heq2 with h3
    injection h3 with h4 h5
    rw [← h5]
  | cons p rest ih =>
    intro ws rs heq
    obtain ⟨t, node⟩ := p
    cases node with
    | none => exact nomatch heq
    | some fsn =>
      cases fsn with
      | dir es =>
        have heq2 : Arelo.addDirRecursive g patterns ignores false t (Arelo.FSNode.dir es)
            = .ok (ws, rs) := heq
        have hspec := addDir_report_spec g patterns ignores false t
          (Arelo.FSNode.dir es) ws rs heq2
        cases rs with
        | nil => rfl
        | cons n rs2 =>
          exact absurd ((hspec n (List.mem_cons_self n rs2)).1) (fun hh => nomatch hh)
      | file =>
        cases hrec : Arelo.addTargets g patterns ignores rest with
        | error e =>
          have heq2 : (match Arelo.addTargets g patterns ignores rest with
              | Except.error e2 => Except.error e2
              | Except.ok (ws2, rs2) => Except.ok (t :: ws2, rs2))
              = Except.ok (ws, rs) := heq
          rw [hrec] at heq2
          exact nomatch heq2
        | ok pr =>
          obtain ⟨ws2, rs2⟩ := pr
          have heq2 : (match Arelo.addTargets g patterns ignores rest with
              | Except.error e2 => Except.error e2
              | Except.ok (ws3, rs3) => Except.ok (t :: ws3, rs3))
              = Except.ok (ws, rs) := heq
          rw [hrec] at heq2
          have heq3 : (Except.ok (t :: ws2, rs2) :
              Except Arelo.Str (List Arelo.Str × List Arelo.Str)) = .ok (ws, rs) := heq2
          injection heq3 with h3
          injection h3 with h4 h5
          rw [← h5]
          exact ih ws2 rs2 hrec

/-- C8 counterexample: a single directory target `d` containing file
`a`, with trigger pattern `d/a` and no ignores, and the same subtree
appearing later as a created directory.  The STARTUP pass registers
the watch but reports nothing (it passes a nil channel:
arelo.go:287), while the POST-startup directory-creation walk does
report the matching file (it passes `modC`: arelo.go:245) — the
opposite of the claim. -/
theorem c8_reporting_counterexample :
    Arelo.addTargets Arelo.eqGlob [['d', '/', 'a']] []
        [(['d'], some (Arelo.FSNode.dir [(['a'], Arelo.FSNode.file)]))]
      = .ok ([['d']], []) ∧
    Arelo.watcherCreateWalk Arelo.eqGlob [['d', '/', 'a']] [] ['d']
        (some (Arelo.FSNode.dir [(['a'], Arelo.FSNode.file)]))
      = .ok ([['d']], [['d', '/', 'a']]) ∧
    ([['d', '/', 'a']] : List Arelo.Str) ≠ [] := by
  have hig : Arelo.matchPatterns Arelo.eqGlob (fspoll.joinPath ['d'] ['a']) []
      = .ok false := rfl
  have hw1 : Arelo.walkEntries Arelo.eqGlob [['d', '/', 'a']] [] false ['d']
      [(['a'], Arelo.FSNode.file)] = .ok ([], []) := by
    rw [Arelo.walkEntries.eq_2, hig]
    have hrep : Arelo.reportStep Arelo.eqGlob [['d', '/', 'a']] false
        (fspoll.joinPath ['d'] ['a']) = .ok [] := rfl
    rw [hrep, Arelo.walkEntries.eq_1]
    rfl
  have hd1 : Arelo.addDirRecursive Arelo.eqGlob [['d', '/', 'a']] [] false ['d']
      (Arelo.FSNode.dir [(['a'], Arelo.FSNode.file)]) = .ok ([['d']], []) := by
    rw [Arelo.addDirRecursive.eq_2, hw1]
  have hw2 : Arelo.walkEntries Arelo.eqGlob [['d', '/', 'a']] [] true ['d']
      [(['a'], Arelo.FSNode.file)] = .ok ([], [['d', '/', 'a']]) := by
    rw [Arelo.walkEntries.eq_2, hig]
    have hrep : Arelo.reportStep Arelo.eqGlob [['d', '/', 'a']] true
        (fspoll.joinPath ['d'] ['a']) = .ok [['d', '/', 'a']] := rfl
    rw [hrep, Arelo.walkEntries.eq_1]
    rfl
  have hd2 : Arelo.addDirRecursive Arelo.eqGlob [['d', '/', 'a']] [] true ['d']
      (Arelo.FSNode.dir [(['a'], Arelo.FSNode.file)]) = .ok ([['d']], [['d', '/', 'a']]) := by
    rw [Arelo.addDirRecursive.eq_2, hw2]
  exact ⟨hd1, hd2, by decide⟩

/-- C8 (amended): the optional reporting of pattern-matched entries is
used only during the POST-startup walks triggered by a
directory-creation event: the startup registration of targets reports
nothing (its channel is nil), and everything the create-walk reports
matches a trigger pattern and no ignore pattern. -/
theorem c8_reporting_amended (g : Arelo.Glob) (patterns ignores : List Arelo.Str)
    (ts : List (Arelo.Str × Option Arelo.FSNode)) (name : Arelo.Str)
    (st : Option Arelo.FSNode) (ws rs ws2 rs2 : List Arelo.Str)
    (hts : Arelo.addTargets g patterns ignores ts = .ok (ws, rs))
    (hcw : Arelo.watcherCreateWalk g patterns ignores name st = .ok (ws2, rs2)) :
    rs = [] ∧
    ∀ n ∈ rs2, Arelo.matchPatterns g n patterns = .ok true ∧
      Arelo.matchPatterns g n ignores = .ok false := by
  constructor
  · exact addTargets_noreport g patterns ignores ts ws rs hts
  · intro n hn
    cases st with
    | none =>
      have h2 : (Except.ok (([] : List Arelo.Str), ([] : List Arelo.Str)) :
          Except Arelo.Str (List Arelo.Str × List Arelo.Str)) = .ok (ws2, rs2) := hcw
      injection h2 with h3
      injection h3 with h4 h5
      rw [← h5] at hn
      exact absurd hn (List.not_mem_nil n)
    | some fsn =>
      cases fsn with
      | file =>
        have h2 : (Except.ok (([] : List Arelo.Str), ([] : List Arelo.Str)) :
            Except Arelo.Str (List Arelo.Str × List Arelo.Str)) = .ok (ws2, rs2) := hcw
        injection h2 with h3
        injection h3 with h4 h5
        rw [← h5] at hn
        exact absurd hn (List.not_mem_nil n)
      | dir es =>
        have h2 : Arelo.addDirRecursive g patterns ignores true name
            (Arelo.FSNode.dir es) = .ok (ws2, rs2) := hcw
        obtain ⟨_, hmp, hig⟩ :=
          addDir_report_spec g patterns ignores true name (Arelo.FSNode.dir es) ws2 rs2 h2 n hn
        exact ⟨hmp, hig⟩

/-- C8 witness: the amended statement at the counterexample's input. -/
theorem c8_reporting_amended_witness :
    ([] : List Arelo.Str) = [] ∧
    (∀ n ∈ ([['d', '/', 'a']] : List Arelo.Str),
      Arelo.matchPatterns Arelo.eqGlob n [['d', '/', 'a']] = .ok true ∧
      Arelo.matchPatterns Arelo.eqGlob n [] = .ok false) := by
  have hig : Arelo.matchPatterns Arelo.eqGlob (fspoll.joinPath ['d'] ['a']) []
      = .ok false := rfl
  have hw1 : Arelo.walkEntries Arelo.eqGlob [['d', '/', 'a']] [] false ['d']
      [(['a'], Arelo.FSNode.file)] = .ok ([], []) := by
    rw [Arelo.walkEntries.eq_2, hig]
    have hrep : Arelo.reportStep Arelo.eqGlob [['d', '/', 'a']] false
        (fspoll.joinPath ['d'] ['a']) = .ok [] := rfl
    rw [hrep, Arelo.walkEntries.eq_1]
    rfl
  have hts : Arelo.addTargets Arelo.eqGlob [['d', '/', 'a']] []
      [(['d'], some (Arelo.FSNode.dir [(['a'], Arelo.FSNode.file)]))]
      = .ok ([['d']], []) := by
    show Arelo.addDirRecursive Arelo.eqGlob [['d', '/', 'a']] [] false ['d']
        (Arelo.FSNode.dir [(['a'], Arelo.FSNode.file)]) = .ok ([['d']], [])
    rw [Arelo.addDirRecursive.eq_2, hw1]
  have hw2 : Arelo.walkEntries Arelo.eqGlob [['d', '/', 'a']] [] true ['d']
      [(['a'], Arelo.FSNode.file)] = .ok ([], [['d', '/', 'a']]) := by
    rw [Arelo.walkEntries.eq_2, hig]
    have hrep : Arelo.reportStep Arelo.eqGlob [['d', '/', 'a']] true
        (fspoll.joinPath ['d'] ['a']) = .ok [['d', '/', 'a']] := rfl
    rw [hrep, Arelo.walkEntries.eq_1]
    rfl
  have hcw : Arelo.watcherCreateWalk Arelo.eqGlob [['d', '/', 'a']] [] ['d']
      (some (Arelo.FSNode.dir [(['a'], Arelo.FSNode.file)]))
      = .ok ([['d']], [['d', '/', 'a']]) := by
    show Arelo.addDirRecursive Arelo.eqGlob [['d', '/', 'a']] [] true ['d']
        (Arelo.FSNode.dir [(['a'], Arelo.FSNode.file)]) = .ok ([['d']], [['d', '/', 'a']])
    rw [Arelo.addDirRecursive.eq_2, hw2]
  exact c8_reporting_amended Arelo.eqGlob [['d', '/', 'a']] []
    [(['d'], some (Arelo.FSNode.dir [(['a'], Arelo.FSNode.file)]))] ['d']
    (some (Arelo.FSNode.dir [(['a'], Arelo.FSNode.file)]))
    [['d']] [] [['d']] [['d', '/', 'a']] hts hcw
